import Mathlib

/-!
Shallow embedding of `src/core/roof/roof_types.py` (building_tools), the
skeleton-to-roof reconstruction module.  Python floats are modelled as `ℚ`
(the module does no transcendental arithmetic on the paths verified here;
the one square root, in `find_closest_pair_edges`, is only used inside an
order comparison and is replaced by the squared distance, which induces the
same order).  Mutable `bmesh` state is modelled by explicit state passing:
vertices, edges and faces are plain records, and each Python statement that
mutates the mesh becomes a function from state to state.  Python exceptions
are modelled with an explicit error type where a claim depends on them.
-/

namespace BuildingTools

/-- A 2-D point of the straight-skeleton output (`arc.source`, elements of
`arc.sinks`).  The skeleton library compares points by value. -/
structure Point where
  x : ℚ
  y : ℚ
deriving DecidableEq, Repr

/-- A mesh vertex: identity (`vid`) plus its 3-D coordinates.  `bmesh`
vertices are mutable objects; `vid` stands for the object identity. -/
structure Vert where
  vid : ℕ
  x : ℚ
  y : ℚ
  z : ℚ
deriving DecidableEq, Repr

/-- A mesh edge, an ordered pair of vertices as created. -/
structure Edge where
  va : Vert
  vb : Vert
deriving DecidableEq, Repr

/-- A face normal / 3-D vector. -/
structure Vec3 where
  x : ℚ
  y : ℚ
  z : ℚ
deriving DecidableEq, Repr

/-- A mesh face: identity, its edge loop, its normal, and its selection
flag (the only face state `create_roof` touches on the default branch). -/
structure Face where
  fid : ℕ
  fedges : List Edge
  normal : Vec3
  sel : Bool
deriving DecidableEq, Repr

/-- One straight-skeleton arc: `{source, sinks, height}` as returned by
`skeletonize` and consumed by `create_gable_roof` / `create_hip_roof`. -/
structure Arc where
  source : Point
  sinks : List Point
  height : ℚ
deriving DecidableEq, Repr

/-- Python `min` over a list (raises `ValueError` on an empty list, hence
`Option`). -/
def listMinQ : List ℚ → Option ℚ
  | [] => none
  | x :: xs => some (xs.foldl min x)

/-- Python `max` over a list of numbers (raises `ValueError` on an empty
list, hence `Option`). -/
def listMaxQ : List ℚ → Option ℚ
  | [] => none
  | x :: xs => some (xs.foldl max x)

/-- A Python exception on the paths the claims touch. -/
inductive PyErr where
  | zeroDivision
  | valueError
deriving DecidableEq, Repr

/-- Python float division: `a / b` raises `ZeroDivisionError` when `b == 0`
(it does not produce `inf`/`nan`). -/
def pyDiv (a b : ℚ) : Except PyErr ℚ :=
  if b = 0 then .error .zeroDivision else .ok (a / b)

/-- The value `max([arc.height for arc in skeleton])` used at lines 99 and
136, with the empty list collapsed to a default (the callers always pass a
nonempty skeleton; the default is irrelevant to the claims). -/
def maxHeight (skeleton : List Arc) : ℚ :=
  (listMaxQ (skeleton.map Arc.height)).getD 0

/-- The height-scale computation of `create_gable_roof` (line 99) and
`create_hip_roof` (line 136), exactly as written:
`height_scale = prop.height / max([arc.height for arc in skeleton])`.
There is no guard of any kind around the division in the source: Python
raises an unhandled `ZeroDivisionError` when every arc height is `0`, and
an unhandled `ValueError` when the skeleton is empty. -/
def roofHeightScale (height : ℚ) (skeleton : List Arc) : Except PyErr ℚ :=
  match listMaxQ (skeleton.map Arc.height) with
  | none => .error .valueError
  | some m => pyDiv height m

/-- Modelled from the spec: the approximate-equality utility `equal` from
`utils` (the utils module is not under `src/`); the spec centralises vertex
identity as "approximately equal" with a small fixed positional epsilon. -/
def EPS : ℚ := 1 / 1000

/-- Modelled from the spec: `equal(a, b)` compares two floats within the
fixed epsilon. -/
def equal (a b : ℚ) : Bool := |a - b| ≤ EPS

/-- Python truthiness of the `loc_z` optional argument of `vert_at_loc`
(`if loc_z:` is false both for `None` and for `0.0`). -/
def truthy : Option ℚ → Bool
  | none => false
  | some z => z ≠ 0

/-- The membership test of the `vert_at_loc` loop (lines 165-172): the
vertex matches when its x and y equal the target within epsilon, and, only
when `loc_z` is truthy, its z equals `loc_z` within epsilon too. -/
def matchesLoc (loc : Point) (loc_z : Option ℚ) (v : Vert) : Bool :=
  equal v.x loc.x && equal v.y loc.y &&
    (if truthy loc_z then equal v.z (loc_z.getD 0) else true)

/-- One comparison step of Python `max(results, key=lambda v: v.co.z)`:
keep the earlier element unless the new one is strictly higher. -/
def zStep (best w : Vert) : Vert := if best.z < w.z then w else best

/-- Python `max(results, key=lambda v: v.co.z)`: the first vertex with the
maximal z (CPython `max` keeps the earlier element on ties). -/
def maxByZ : List Vert → Option Vert
  | [] => none
  | v :: vs => some (vs.foldl zStep v)

/-- `vert_at_loc` (lines 161-176): collect every vertex at `loc`'s (x, y)
(and z, when `loc_z` is truthy), and return the one with the highest z, or
`None` when there is none. -/
def vert_at_loc (loc : Point) (verts : List Vert) (loc_z : Option ℚ) : Option Vert :=
  maxByZ (verts.filter (matchesLoc loc loc_z))

/-- The height list `[arc.height for arc in skeleton if arc.source == source]`
of line 188, consumed by `.pop()` (its last element; the list is nonempty
whenever the point is the current arc's own source, so the default never
fires on the code's executions). -/
def sourceHeightOf (skeleton : List Arc) (source : Point) : ℚ :=
  (((skeleton.filter (fun a => a.source = source)).map Arc.height).getLast?).getD 0

/-- The height `min([arc.height for arc in skeleton if sink in arc.sinks])`
of line 196 (nonempty on the code's executions, since the current arc lists
the point among its sinks). -/
def sinkHeightOf (skeleton : List Arc) (sink : Point) : ℚ :=
  (listMinQ ((skeleton.filter (fun a => sink ∈ a.sinks)).map Arc.height)).getD 0

/-- The mutable state `create_skeleton_verts_and_edges` threads: the mesh
vertex list (`bm.verts`), a fresh-identity counter, and the accumulating
`skeleton_verts` and `skeleton_edges` lists of lines 182-183. -/
structure LiftState where
  verts : List Vert
  nextId : ℕ
  skeletonVerts : List Vert
  skeletonEdges : List Edge
deriving DecidableEq, Repr

/-- Resolution of an arc's source point (lines 185-191): reuse the vertex
`vert_at_loc` finds, else create a new one at
`(source.x, source.y, median.z + source_height.pop() * height_scale)` and
record it in both `bm.verts` and `skeleton_verts`. -/
def resolveSource (skeleton : List Arc) (median_z height_scale : ℚ)
    (st : LiftState) (source : Point) : Vert × LiftState :=
  match vert_at_loc source st.verts none with
  | some v => (v, st)
  | none =>
      let ht := sourceHeightOf skeleton source * height_scale
      let v : Vert := ⟨st.nextId, source.x, source.y, median_z + ht⟩
      (v,
        { st with
            verts := st.verts ++ [v]
            nextId := st.nextId + 1
            skeletonVerts := st.skeletonVerts ++ [v] })

/-- Resolution of one sink point (lines 194-198): reuse the vertex
`vert_at_loc` finds, else create a new one at
`(sink.x, sink.y, median.z + height_scale * sink_height)` where
`sink_height` is the minimum height among all arcs having the point as a
sink. -/
def resolveSink (skeleton : List Arc) (median_z height_scale : ℚ)
    (st : LiftState) (sink : Point) : Vert × LiftState :=
  match vert_at_loc sink st.verts none with
  | some vs => (vs, st)
  | none =>
      let ht := height_scale * sinkHeightOf skeleton sink
      let vs : Vert := ⟨st.nextId, sink.x, sink.y, median_z + ht⟩
      (vs,
        { st with
            verts := st.verts ++ [vs]
            nextId := st.nextId + 1 })

/-- The body of the `for sink in arc.sinks` loop (lines 193-204): resolve
the sink, append it to `skeleton_verts` (reused or not), and create the
edge from the arc's resolved source unless the two are the same vertex. -/
def processSink (skeleton : List Arc) (median_z height_scale : ℚ) (vsource : Vert)
    (st : LiftState) (sink : Point) : LiftState :=
  let p := resolveSink skeleton median_z height_scale st sink
  let st2 := { p.2 with skeletonVerts := p.2.skeletonVerts ++ [p.1] }
  if p.1 ≠ vsource then
    { st2 with skeletonEdges := st2.skeletonEdges ++ [Edge.mk vsource p.1] }
  else st2

/-- The body of the `for arc in skeleton` loop (lines 184-204). -/
def processArc (skeleton : List Arc) (median_z height_scale : ℚ)
    (st : LiftState) (arc : Arc) : LiftState :=
  let p := resolveSource skeleton median_z height_scale st arc.source
  arc.sinks.foldl (processSink skeleton median_z height_scale p.1) p.2

/-- The state at entry to `create_skeleton_verts_and_edges`: the mesh holds
the footprint's existing vertices, and `skeleton_verts` / `skeleton_edges`
(lines 182-183) start empty. -/
def initLiftState (initVerts : List Vert) : LiftState :=
  { verts := initVerts
    nextId := (initVerts.map Vert.vid).foldr max 0 + 1
    skeletonVerts := []
    skeletonEdges := [] }

/-- The vertex/edge-creating loop of `create_skeleton_verts_and_edges`
(lines 179-204), as a fold over the skeleton starting from the mesh's
existing vertices.  The subsequent weld (`remove_doubles`, line 205) and
the intersection-splitting pass (line 211) are mesh-kernel consolidation
passes that the claims below do not touch; the claims about generated
vertex heights are stated on this fold's output, the code's
`skeleton_verts` / `skeleton_edges` as of line 204. -/
def create_skeleton_verts_and_edges (skeleton : List Arc) (initVerts : List Vert)
    (median_z height_scale : ℚ) : LiftState :=
  skeleton.foldl (processArc skeleton median_z height_scale) (initLiftState initVerts)

/-- Maximum z coordinate over a vertex list (0 for the empty list; the
claims only apply it to nonempty lists). -/
def maxZOf (vs : List Vert) : ℚ :=
  (listMaxQ (vs.map Vert.z)).getD 0

/-- A vertex and a 2-D point coincide in x and y within epsilon. -/
def nearXY (v : Vert) (p : Point) : Bool := equal v.x p.x && equal v.y p.y

/-- Two 2-D points coincide within epsilon. -/
def nearPt (p q : Point) : Bool := equal p.x q.x && equal p.y q.y

/-! ### Basic facts about the numeric and list helpers -/

theorem equal_self (a : ℚ) : equal a a = true := by
  simp only [equal, sub_self, abs_zero, EPS]
  norm_num

theorem nearPt_self (p : Point) : nearPt p p = true := by
  simp [nearPt, equal_self]

theorem le_foldl_max (l : List ℚ) (x : ℚ) : x ≤ l.foldl max x := by
  induction l generalizing x with
  | nil => simp
  | cons a l ih => exact le_trans (le_max_left x a) (ih (max x a))

theorem mem_le_foldl_max (l : List ℚ) (x : ℚ) : ∀ a ∈ l, a ≤ l.foldl max x := by
  induction l generalizing x with
  | nil => simp
  | cons b l ih =>
      intro a ha
      rcases List.mem_cons.mp ha with rfl | ha
      · exact le_trans (le_max_right x a) (le_foldl_max l (max x a))
      · exact ih (max x b) a ha

theorem foldl_max_le (l : List ℚ) (x c : ℚ) (hx : x ≤ c) (h : ∀ a ∈ l, a ≤ c) :
    l.foldl max x ≤ c := by
  induction l generalizing x with
  | nil => simpa using hx
  | cons a l ih =>
      exact ih (max x a) (max_le hx (h a (List.mem_cons_self a l)))
        fun b hb => h b (List.mem_cons_of_mem a hb)

theorem foldl_min_le (l : List ℚ) (x : ℚ) : l.foldl min x ≤ x := by
  induction l generalizing x with
  | nil => simp
  | cons a l ih => exact le_trans (ih (min x a)) (min_le_left x a)

theorem mem_le_listMaxQ (l : List ℚ) (a : ℚ) (ha : a ∈ l) : a ≤ (listMaxQ l).getD 0 := by
  cases l with
  | nil => cases ha
  | cons x xs =>
      rcases List.mem_cons.mp ha with rfl | ha
      · simpa [listMaxQ] using le_foldl_max xs a
      · simpa [listMaxQ] using mem_le_foldl_max xs x a ha

theorem listMaxQ_le (l : List ℚ) (c : ℚ) (hne : l ≠ []) (h : ∀ a ∈ l, a ≤ c) :
    (listMaxQ l).getD 0 ≤ c := by
  cases l with
  | nil => exact absurd rfl hne
  | cons x xs =>
      simpa [listMaxQ] using
        foldl_max_le xs x c (h x (List.mem_cons_self x xs))
          fun b hb => h b (List.mem_cons_of_mem x hb)

theorem getLast?_mem {α : Type} {l : List α} {x : α} (h : l.getLast? = some x) : x ∈ l := by
  obtain ⟨hne, rfl⟩ := List.mem_getLast?_eq_getLast (l := l) (x := x) (by simp [h])
  exact List.getLast_mem hne

theorem height_le_maxHeight (skeleton : List Arc) (a : Arc) (ha : a ∈ skeleton) :
    a.height ≤ maxHeight skeleton :=
  mem_le_listMaxQ _ _ (List.mem_map_of_mem Arc.height ha)

theorem sourceHeightOf_le (skeleton : List Arc) (p : Point)
    (hM : 0 ≤ maxHeight skeleton) : sourceHeightOf skeleton p ≤ maxHeight skeleton := by
  unfold sourceHeightOf
  cases hl : ((skeleton.filter fun a => a.source = p).map Arc.height).getLast? with
  | none => simpa using hM
  | some x =>
      obtain ⟨b, hb, rfl⟩ := List.mem_map.mp (getLast?_mem hl)
      simpa using height_le_maxHeight skeleton b (List.mem_of_mem_filter hb)

theorem sinkHeightOf_le (skeleton : List Arc) (p : Point)
    (hM : 0 ≤ maxHeight skeleton) : sinkHeightOf skeleton p ≤ maxHeight skeleton := by
  unfold sinkHeightOf
  cases hl : (skeleton.filter fun a => p ∈ a.sinks).map Arc.height with
  | nil => simpa [listMinQ] using hM
  | cons x xs =>
      have hx : x ∈ (skeleton.filter fun a => p ∈ a.sinks).map Arc.height := by
        rw [hl]; exact List.mem_cons_self x xs
      obtain ⟨b, hb, hbx⟩ := List.mem_map.mp hx
      have hxM : x ≤ maxHeight skeleton :=
        hbx ▸ height_le_maxHeight skeleton b (List.mem_of_mem_filter hb)
      simpa [listMinQ] using le_trans (foldl_min_le xs x) hxM

theorem zStep_cases (v a : Vert) : zStep v a = a ∨ zStep v a = v := by
  unfold zStep
  by_cases h : v.z < a.z <;> simp [h]

theorem le_zStep_left (v a : Vert) : v.z ≤ (zStep v a).z := by
  unfold zStep
  by_cases h : v.z < a.z <;> simp [h]
  exact le_of_lt h

theorem le_zStep_right (v a : Vert) : a.z ≤ (zStep v a).z := by
  unfold zStep
  by_cases h : v.z < a.z <;> simp [h]
  exact le_of_not_lt h

theorem foldl_zStep_mem (l : List Vert) (v : Vert) :
    l.foldl zStep v = v ∨ l.foldl zStep v ∈ l := by
  induction l generalizing v with
  | nil => simp
  | cons a l ih =>
      rw [List.foldl_cons]
      rcases ih (zStep v a) with h | h
      · rcases zStep_cases v a with hc | hc
        · exact Or.inr (by rw [h, hc]; exact List.mem_cons_self a l)
        · exact Or.inl (by rw [h, hc])
      · exact Or.inr (List.mem_cons_of_mem a h)

theorem le_foldl_zStep (l : List Vert) (v : Vert) : v.z ≤ (l.foldl zStep v).z := by
  induction l generalizing v with
  | nil => simp
  | cons a l ih =>
      rw [List.foldl_cons]
      exact le_trans (le_zStep_left v a) (ih (zStep v a))

theorem mem_le_foldl_zStep (l : List Vert) (v : Vert) :
    ∀ w ∈ l, w.z ≤ (l.foldl zStep v).z := by
  induction l generalizing v with
  | nil => simp
  | cons a l ih =>
      intro w hw
      rw [List.foldl_cons]
      rcases List.mem_cons.mp hw with rfl | hw
      · exact le_trans (le_zStep_right v w) (le_foldl_zStep l (zStep v w))
      · exact ih (zStep v a) w hw

theorem maxByZ_spec (l : List Vert) (v : Vert) (h : maxByZ l = some v) :
    v ∈ l ∧ ∀ w ∈ l, w.z ≤ v.z := by
  cases l with
  | nil => simp [maxByZ] at h
  | cons x xs =>
      simp only [maxByZ, Option.some.injEq] at h
      subst h
      refine ⟨?_, ?_⟩
      · rcases foldl_zStep_mem xs x with h | h
        · rw [h]; exact List.mem_cons_self x xs
        · exact List.mem_cons_of_mem x h
      · intro w hw
        rcases List.mem_cons.mp hw with rfl | hw
        · exact le_foldl_zStep xs w
        · exact mem_le_foldl_zStep xs x w hw

theorem maxByZ_eq_none_iff (l : List Vert) : maxByZ l = none ↔ l = [] := by
  cases l <;> simp [maxByZ]

theorem vert_at_loc_none_iff (loc : Point) (verts : List Vert) (lz : Option ℚ) :
    vert_at_loc loc verts lz = none ↔ ∀ v ∈ verts, matchesLoc loc lz v = false := by
  rw [vert_at_loc, maxByZ_eq_none_iff, List.filter_eq_nil_iff]
  simp

theorem vert_at_loc_some (loc : Point) (verts : List Vert) (lz : Option ℚ) (v : Vert)
    (h : vert_at_loc loc verts lz = some v) :
    v ∈ verts ∧ matchesLoc loc lz v = true ∧
      ∀ w ∈ verts, matchesLoc loc lz w = true → w.z ≤ v.z := by
  obtain ⟨hmem, hall⟩ := maxByZ_spec _ v h
  have hv := List.mem_filter.mp hmem
  exact ⟨hv.1, hv.2, fun w hw hmw => hall w (List.mem_filter.mpr ⟨hw, hmw⟩)⟩

theorem matchesLoc_none (loc : Point) (v : Vert) :
    matchesLoc loc none v = nearXY v loc := by
  simp [matchesLoc, nearXY, truthy]

theorem foldl_preserve {α β : Type} (P : α → Prop) (f : α → β → α)
    (hf : ∀ st b, P st → P (f st b)) :
    ∀ (l : List β) (st : α), P st → P (l.foldl f st) := by
  intro l
  induction l with
  | nil => intro st h; simpa using h
  | cons b t ih => intro st h; exact ih (f st b) (hf st b h)

theorem foldl_preserve_mem {α β : Type} (P : α → Prop) (f : α → β → α) :
    ∀ l : List β, (∀ st b, b ∈ l → P st → P (f st b)) → ∀ st : α, P st → P (l.foldl f st) := by
  intro l
  induction l with
  | nil => intro _ st h; simpa using h
  | cons b t ih =>
      intro hf st h
      exact ih (fun st c hc hp => hf st c (List.mem_cons_of_mem b hc) hp) (f st b)
        (hf st b (List.mem_cons_self b t) h)

theorem mem_first_split {α : Type} [DecidableEq α] {a : α} {l : List α} (h : a ∈ l) :
    ∃ s t, l = s ++ a :: t ∧ a ∉ s := by
  induction l with
  | nil => cases h
  | cons b t ih =>
      by_cases hb : a = b
      · exact ⟨[], t, by simp [hb], by simp⟩
      · rcases List.mem_cons.mp h with h | h
        · exact absurd h hb
        · obtain ⟨s, u, hsu, hns⟩ := ih h
          exact ⟨b :: s, u, by simp [hsu], by simp [hns, hb]⟩

/-! ### How the lifting fold evolves the state -/

theorem resolveSource_some (skeleton : List Arc) (mz scl : ℚ) (st : LiftState)
    (source : Point) (v : Vert) (hv : vert_at_loc source st.verts none = some v) :
    resolveSource skeleton mz scl st source = (v, st) := by
  simp [resolveSource, hv]

theorem resolveSource_none (skeleton : List Arc) (mz scl : ℚ) (st : LiftState)
    (source : Point) (hv : vert_at_loc source st.verts none = none) :
    resolveSource skeleton mz scl st source =
      (⟨st.nextId, source.x, source.y, mz + sourceHeightOf skeleton source * scl⟩,
        { st with
            verts := st.verts ++
              [⟨st.nextId, source.x, source.y, mz + sourceHeightOf skeleton source * scl⟩]
            nextId := st.nextId + 1
            skeletonVerts := st.skeletonVerts ++
              [⟨st.nextId, source.x, source.y, mz + sourceHeightOf skeleton source * scl⟩] }) := by
  simp [resolveSource, hv]

theorem resolveSink_some (skeleton : List Arc) (mz scl : ℚ) (st : LiftState)
    (sink : Point) (v : Vert) (hv : vert_at_loc sink st.verts none = some v) :
    resolveSink skeleton mz scl st sink = (v, st) := by
  simp [resolveSink, hv]

theorem resolveSink_none (skeleton : List Arc) (mz scl : ℚ) (st : LiftState)
    (sink : Point) (hv : vert_at_loc sink st.verts none = none) :
    resolveSink skeleton mz scl st sink =
      (⟨st.nextId, sink.x, sink.y, mz + scl * sinkHeightOf skeleton sink⟩,
        { st with
            verts := st.verts ++
              [⟨st.nextId, sink.x, sink.y, mz + scl * sinkHeightOf skeleton sink⟩]
            nextId := st.nextId + 1 }) := by
  simp [resolveSink, hv]

theorem resolveSink_skelVerts (skeleton : List Arc) (mz scl : ℚ) (st : LiftState)
    (sink : Point) :
    (resolveSink skeleton mz scl st sink).2.skeletonVerts = st.skeletonVerts := by
  cases hv : vert_at_loc sink st.verts none <;> simp [resolveSink, hv]

theorem processSink_verts (skeleton : List Arc) (mz scl : ℚ) (vsource : Vert)
    (st : LiftState) (sink : Point) :
    (processSink skeleton mz scl vsource st sink).verts
      = (resolveSink skeleton mz scl st sink).2.verts := by
  unfold processSink
  dsimp only
  split <;> rfl

theorem processSink_skelVerts (skeleton : List Arc) (mz scl : ℚ) (vsource : Vert)
    (st : LiftState) (sink : Point) :
    (processSink skeleton mz scl vsource st sink).skeletonVerts
      = st.skeletonVerts ++ [(resolveSink skeleton mz scl st sink).1] := by
  unfold processSink
  dsimp only
  split <;> simp [resolveSink_skelVerts]

theorem processSink_skelVerts_mono (skeleton : List Arc) (mz scl : ℚ) (vsource : Vert)
    (st : LiftState) (sink : Point) (v : Vert) (h : v ∈ st.skeletonVerts) :
    v ∈ (processSink skeleton mz scl vsource st sink).skeletonVerts := by
  rw [processSink_skelVerts]
  exact List.mem_append_left _ h

theorem processArc_skelVerts_mono (skeleton : List Arc) (mz scl : ℚ)
    (st : LiftState) (arc : Arc) (v : Vert) (h : v ∈ st.skeletonVerts) :
    v ∈ (processArc skeleton mz scl st arc).skeletonVerts := by
  unfold processArc
  dsimp only
  refine foldl_preserve (fun s : LiftState => v ∈ s.skeletonVerts) _
    (fun s b hm => processSink_skelVerts_mono skeleton mz scl _ s b v hm) arc.sinks _ ?_
  cases hv : vert_at_loc arc.source st.verts none with
  | some w => rw [resolveSource_some skeleton mz scl st arc.source w hv]; exact h
  | none =>
      rw [resolveSource_none skeleton mz scl st arc.source hv]
      exact List.mem_append_left _ h

/-- Both components of the lifted state stay below a height bound `c` as
long as every vertex the fold can create stays below it. -/
def HBound (c : ℚ) (st : LiftState) : Prop :=
  (∀ v ∈ st.verts, v.z ≤ c) ∧ ∀ v ∈ st.skeletonVerts, v.z ≤ c

theorem resolveSink_bound (skeleton : List Arc) (mz scl c : ℚ) (st : LiftState)
    (sink : Point) (hsink : mz + scl * sinkHeightOf skeleton sink ≤ c)
    (h : ∀ v ∈ st.verts, v.z ≤ c) :
    (∀ v ∈ (resolveSink skeleton mz scl st sink).2.verts, v.z ≤ c) ∧
      (resolveSink skeleton mz scl st sink).1.z ≤ c := by
  cases hv : vert_at_loc sink st.verts none with
  | some vs =>
      rw [resolveSink_some skeleton mz scl st sink vs hv]
      exact ⟨h, h vs (vert_at_loc_some sink st.verts none vs hv).1⟩
  | none =>
      rw [resolveSink_none skeleton mz scl st sink hv]
      refine ⟨?_, hsink⟩
      intro v hvv
      rcases List.mem_append.mp hvv with h1 | h1
      · exact h v h1
      · rw [List.mem_singleton.mp h1]
        exact hsink

theorem processSink_bound (skeleton : List Arc) (mz scl c : ℚ) (vsource : Vert)
    (hsink : ∀ s, mz + scl * sinkHeightOf skeleton s ≤ c) (st : LiftState) (sink : Point)
    (h : HBound c st) : HBound c (processSink skeleton mz scl vsource st sink) := by
  obtain ⟨hv, hz⟩ := resolveSink_bound skeleton mz scl c st sink (hsink sink) h.1
  constructor
  · rw [processSink_verts]; exact hv
  · rw [processSink_skelVerts]
    intro v hvv
    rcases List.mem_append.mp hvv with h1 | h1
    · exact h.2 v h1
    · rw [List.mem_singleton.mp h1]
      exact hz

theorem processArc_bound (skeleton : List Arc) (mz scl c : ℚ)
    (hsrc : ∀ p, mz + sourceHeightOf skeleton p * scl ≤ c)
    (hsink : ∀ s, mz + scl * sinkHeightOf skeleton s ≤ c)
    (st : LiftState) (arc : Arc) (h : HBound c st) :
    HBound c (processArc skeleton mz scl st arc) := by
  unfold processArc
  dsimp only
  refine foldl_preserve (HBound c) _
    (fun s b hb => processSink_bound skeleton mz scl c _ hsink s b hb) arc.sinks _ ?_
  cases hv : vert_at_loc arc.source st.verts none with
  | some w => rw [resolveSource_some skeleton mz scl st arc.source w hv]; exact h
  | none =>
      rw [resolveSource_none skeleton mz scl st arc.source hv]
      constructor
      · intro v hvv
        rcases List.mem_append.mp hvv with h1 | h1
        · exact h.1 v h1
        · rw [List.mem_singleton.mp h1]
          exact hsrc arc.source
      · intro v hvv
        rcases List.mem_append.mp hvv with h1 | h1
        · exact h.2 v h1
        · rw [List.mem_singleton.mp h1]
          exact hsrc arc.source

/-- A vertex lies (exactly, in x and y) at one of an arc's skeleton points. -/
def atArcPoint (v : Vert) (B : Arc) : Prop :=
  (v.x = B.source.x ∧ v.y = B.source.y) ∨ ∃ s ∈ B.sinks, v.x = s.x ∧ v.y = s.y

theorem resolveSink_verts_sub (skeleton : List Arc) (mz scl : ℚ) (st : LiftState)
    (sink : Point) :
    ∀ v ∈ (resolveSink skeleton mz scl st sink).2.verts,
      v ∈ st.verts ∨ (v.x = sink.x ∧ v.y = sink.y) := by
  intro v hv
  cases hs : vert_at_loc sink st.verts none with
  | some w =>
      rw [resolveSink_some skeleton mz scl st sink w hs] at hv
      exact Or.inl hv
  | none =>
      rw [resolveSink_none skeleton mz scl st sink hs] at hv
      rcases List.mem_append.mp hv with h1 | h1
      · exact Or.inl h1
      · rw [List.mem_singleton.mp h1]
        exact Or.inr ⟨rfl, rfl⟩

theorem processArc_verts_sub (skeleton : List Arc) (mz scl : ℚ) (st : LiftState)
    (arc : Arc) :
    ∀ v ∈ (processArc skeleton mz scl st arc).verts, v ∈ st.verts ∨ atArcPoint v arc := by
  unfold processArc
  dsimp only
  refine foldl_preserve_mem (fun s : LiftState => ∀ v ∈ s.verts, v ∈ st.verts ∨ atArcPoint v arc) _
    arc.sinks ?_ _ ?_
  · intro s b hb hP v hv
    rw [processSink_verts] at hv
    rcases resolveSink_verts_sub skeleton mz scl s b v hv with h1 | h1
    · exact hP v h1
    · exact Or.inr (Or.inr ⟨b, hb, h1⟩)
  · intro v hv
    cases hs : vert_at_loc arc.source st.verts none with
    | some w =>
        rw [resolveSource_some skeleton mz scl st arc.source w hs] at hv
        exact Or.inl hv
    | none =>
        rw [resolveSource_none skeleton mz scl st arc.source hs] at hv
        rcases List.mem_append.mp hv with h1 | h1
        · exact Or.inl h1
        · rw [List.mem_singleton.mp h1]
          exact Or.inr (Or.inl ⟨rfl, rfl⟩)

theorem foldl_processArc_verts_sub (skeleton : List Arc) (mz scl : ℚ) (L : List Arc)
    (st0 : LiftState) :
    ∀ v ∈ (L.foldl (processArc skeleton mz scl) st0).verts,
      v ∈ st0.verts ∨ ∃ B ∈ L, atArcPoint v B := by
  refine foldl_preserve_mem
    (fun st : LiftState => ∀ v ∈ st.verts, v ∈ st0.verts ∨ ∃ B ∈ L, atArcPoint v B) _ L ?_ st0 ?_
  · intro st arc harc hP v hv
    rcases processArc_verts_sub skeleton mz scl st arc v hv with h1 | h1
    · exact hP v h1
    · exact Or.inr ⟨arc, harc, h1⟩
  · intro v hv
    exact Or.inl hv

/-! ### Claim C1: the degenerate-skeleton division is not guarded -/

/-- A footprint whose straight skeleton consists only of zero-height arcs
(interface of section 6: one source, nonempty sinks, non-negative heights). -/
def zeroHeightSkeleton : List Arc :=
  [⟨⟨0, 0⟩, [⟨1, 0⟩], 0⟩, ⟨⟨1, 1⟩, [⟨0, 1⟩], 0⟩]

/-- C1: the claim states that `create_gable_roof` / `create_hip_roof`
explicitly guard the division `target_height / max(height)` and report a
degenerate-skeleton ("unprocessable footprint") error.  The code has no
guard: lines 99 and 136 perform the division directly, so on a skeleton
whose arc heights are all zero Python raises an unhandled
`ZeroDivisionError` (neither a NaN/Inf height nor a degenerate-skeleton
report). -/
theorem roofHeightScale_zero_skeleton_unguarded :
    (∀ a ∈ zeroHeightSkeleton, a.height = 0) ∧
      roofHeightScale 2 zeroHeightSkeleton = .error .zeroDivision :=
  ⟨by decide, rfl⟩

/-! ### Claim C2: height scaling of the generated skeleton vertices -/

/-- A skeleton meeting the interface of section 6 (one source, nonempty
sinks, non-negative heights, one arc of non-zero height) in which the
maximum-height arc's source point was already materialised — at a lower
height — as the sink of an earlier arc, so the reuse path of `vert_at_loc`
suppresses the vertex that would have reached the configured height. -/
def reusedApexSkeleton : List Arc :=
  [⟨⟨0, 0⟩, [⟨1, 1⟩], 1⟩, ⟨⟨1, 1⟩, [⟨0, 0⟩], 2⟩]

/-- The boundary vertices of a square footprint (side 20, at z = 0, median
z = 0), present in `bm.verts` when `create_skeleton_verts_and_edges`
starts; the skeleton's interior points are far from all of them. -/
def squareFootprintVerts : List Vert :=
  [⟨1, -10, -10, 0⟩, ⟨2, 10, -10, 0⟩, ⟨3, 10, 10, 0⟩, ⟨4, -10, 10, 0⟩]

/-- C2, counterexample: running the lifting fold on `reusedApexSkeleton`
over the square footprint with `median_z = 0`, configured height `2` and
`height_scale = 2 / max(arc.height)` produces skeleton vertices whose
maximum z is `1`, not `median_z + 2`: the claim fails as stated.  (The
arc of height 2 finds the vertex its sibling created at z = 1 and reuses
it, so no vertex ever reaches the configured height.) -/
theorem claim2_height_scaling_counterexample :
    (∃ a ∈ reusedApexSkeleton, a.height ≠ 0) ∧
      maxZOf (create_skeleton_verts_and_edges reusedApexSkeleton squareFootprintVerts 0
        (2 / maxHeight reusedApexSkeleton)).skeletonVerts ≠ 0 + 2 := by
  constructor
  · decide
  · have hval : maxZOf (create_skeleton_verts_and_edges reusedApexSkeleton
        squareFootprintVerts 0
        (2 / maxHeight reusedApexSkeleton)).skeletonVerts = 1 := by
      norm_num [create_skeleton_verts_and_edges, initLiftState, processArc, resolveSource,
        resolveSink, processSink, vert_at_loc, matchesLoc, maxByZ, zStep, truthy, equal, EPS,
        sourceHeightOf, sinkHeightOf, maxHeight, listMinQ, listMaxQ, maxZOf,
        reusedApexSkeleton, squareFootprintVerts, List.foldl_cons, List.foldl_nil,
        List.filter]
    rw [hval]
    norm_num

/-- C2, amended: the maximum z among the vertices accumulated by
`create_skeleton_verts_and_edges` equals `median_z + h` (with
`height_scale = h / max(arc.height)`) provided, beyond the claim's own
hypotheses (some arc of non-zero height; the interface's non-negative
heights and positive configured height), that (a) every pre-existing mesh
vertex lies at or below `median_z + h`, and (b) some maximum-height arc has
a source point that no pre-existing vertex and no other arc's source or
sink comes within epsilon of — i.e. its apex vertex is actually created
rather than looked up.  The counterexample shows the claim false without
(b). -/
theorem claim2_height_scaling_amended
    (skeleton : List Arc) (initVerts : List Vert) (median_z h : ℚ)
    (hh : 0 < h)
    (hpos : ∀ a ∈ skeleton, 0 ≤ a.height)
    (hnz : ∃ a ∈ skeleton, a.height ≠ 0)
    (hinit : ∀ v ∈ initVerts, v.z ≤ median_z + h)
    (hfree : ∃ A ∈ skeleton, A.height = maxHeight skeleton ∧
      (∀ v ∈ initVerts, nearXY v A.source = false) ∧
      ∀ B ∈ skeleton, B ≠ A →
        nearPt B.source A.source = false ∧ ∀ s ∈ B.sinks, nearPt s A.source = false) :
    maxZOf (create_skeleton_verts_and_edges skeleton initVerts median_z
      (h / maxHeight skeleton)).skeletonVerts = median_z + h := by
  obtain ⟨A, hAmem, hAheight, hAinit, hAother⟩ := hfree
  obtain ⟨a0, ha0, ha0nz⟩ := hnz
  have hMpos : 0 < maxHeight skeleton :=
    lt_of_lt_of_le (lt_of_le_of_ne (hpos a0 ha0) (Ne.symm ha0nz))
      (height_le_maxHeight skeleton a0 ha0)
  have hMne : maxHeight skeleton ≠ 0 := ne_of_gt hMpos
  have hscl : (0 : ℚ) ≤ h / maxHeight skeleton := div_nonneg hh.le hMpos.le
  have hMscl : maxHeight skeleton * (h / maxHeight skeleton) = h := by
    rw [mul_comm]
    exact div_mul_cancel₀ h hMne
  have hsrc : ∀ p, median_z + sourceHeightOf skeleton p * (h / maxHeight skeleton)
      ≤ median_z + h := by
    intro p
    have h1 : sourceHeightOf skeleton p * (h / maxHeight skeleton)
        ≤ maxHeight skeleton * (h / maxHeight skeleton) :=
      mul_le_mul_of_nonneg_right (sourceHeightOf_le skeleton p hMpos.le) hscl
    linarith
  have hsink : ∀ s, median_z + (h / maxHeight skeleton) * sinkHeightOf skeleton s
      ≤ median_z + h := by
    intro s
    have h1 : (h / maxHeight skeleton) * sinkHeightOf skeleton s
        ≤ (h / maxHeight skeleton) * maxHeight skeleton :=
      mul_le_mul_of_nonneg_left (sinkHeightOf_le skeleton s hMpos.le) hscl
    have h2 : (h / maxHeight skeleton) * maxHeight skeleton = h := div_mul_cancel₀ h hMne
    linarith
  have hbound : HBound (median_z + h)
      (create_skeleton_verts_and_edges skeleton initVerts median_z
        (h / maxHeight skeleton)) := by
    unfold create_skeleton_verts_and_edges
    refine foldl_preserve (HBound (median_z + h)) _
      (fun st arc hst =>
        processArc_bound skeleton median_z (h / maxHeight skeleton) (median_z + h)
          hsrc hsink st arc hst) skeleton (initLiftState initVerts) ?_
    exact ⟨fun v hv => hinit v hv, by simp [initLiftState]⟩
  obtain ⟨pre, post, hsplit, hApre⟩ := mem_first_split hAmem
  set scl : ℚ := h / maxHeight skeleton with hscldef
  set st1 : LiftState :=
    pre.foldl (processArc skeleton median_z scl) (initLiftState initVerts) with hst1
  have hclean : ∀ v ∈ st1.verts, nearXY v A.source = false := by
    intro v hv
    rw [hst1] at hv
    rcases foldl_processArc_verts_sub skeleton median_z scl pre
        (initLiftState initVerts) v hv with h1 | ⟨B, hB, hBpt⟩
    · exact hAinit v (by simpa [initLiftState] using h1)
    · have hBskel : B ∈ skeleton := by
        rw [hsplit]
        exact List.mem_append_left _ hB
      have hBne : B ≠ A := fun he => hApre (he ▸ hB)
      obtain ⟨hBs, hBsk⟩ := hAother B hBskel hBne
      rcases hBpt with ⟨hx, hy⟩ | ⟨s, hs, hx, hy⟩
      · simpa [nearXY, nearPt, hx, hy] using hBs
      · simpa [nearXY, nearPt, hx, hy] using hBsk s hs
  have hnone : vert_at_loc A.source st1.verts none = none := by
    rw [vert_at_loc_none_iff]
    intro v hv
    rw [matchesLoc_none]
    exact hclean v hv
  have hAllH : ∀ B ∈ skeleton, B.source = A.source → B.height = maxHeight skeleton := by
    intro B hB hBs
    by_cases hBA : B = A
    · rw [hBA, hAheight]
    · have hf := (hAother B hB hBA).1
      rw [hBs, nearPt_self] at hf
      cases hf
  have hsrcA : sourceHeightOf skeleton A.source = maxHeight skeleton := by
    unfold sourceHeightOf
    have hAf : A ∈ skeleton.filter (fun a => a.source = A.source) :=
      List.mem_filter.mpr ⟨hAmem, by simp⟩
    have hne2 : (skeleton.filter (fun a => a.source = A.source)).map Arc.height ≠ [] := by
      intro hemp
      rw [List.map_eq_nil_iff] at hemp
      rw [hemp] at hAf
      cases hAf
    rw [List.getLast?_eq_getLast _ hne2, Option.getD_some]
    obtain ⟨B, hBf, hBh⟩ := List.mem_map.mp (List.getLast_mem hne2)
    have hBp := List.mem_filter.mp hBf
    rw [← hBh]
    exact hAllH B hBp.1 (by simpa using hBp.2)
  have hres := resolveSource_none skeleton median_z scl st1 A.source hnone
  have hvAmemA : (⟨st1.nextId, A.source.x, A.source.y,
      median_z + sourceHeightOf skeleton A.source * scl⟩ : Vert)
      ∈ (processArc skeleton median_z scl st1 A).skeletonVerts := by
    unfold processArc
    dsimp only
    refine foldl_preserve (fun s : LiftState =>
      (⟨st1.nextId, A.source.x, A.source.y,
        median_z + sourceHeightOf skeleton A.source * scl⟩ : Vert) ∈ s.skeletonVerts) _
      (fun s b hm => processSink_skelVerts_mono skeleton median_z scl _ s b _ hm)
      A.sinks _ ?_
    rw [hres]
    exact List.mem_append_right _ (List.mem_singleton.mpr rfl)
  have hfold : create_skeleton_verts_and_edges skeleton initVerts median_z scl
      = post.foldl (processArc skeleton median_z scl)
          (processArc skeleton median_z scl st1 A) := by
    rw [hst1, create_skeleton_verts_and_edges]
    conv_lhs => rw [hsplit]
    rw [List.foldl_append, List.foldl_cons, ← hsplit]
  have hvAfinal : (⟨st1.nextId, A.source.x, A.source.y,
      median_z + sourceHeightOf skeleton A.source * scl⟩ : Vert)
      ∈ (create_skeleton_verts_and_edges skeleton initVerts median_z scl).skeletonVerts := by
    rw [hfold]
    exact foldl_preserve (fun s : LiftState =>
      (⟨st1.nextId, A.source.x, A.source.y,
        median_z + sourceHeightOf skeleton A.source * scl⟩ : Vert) ∈ s.skeletonVerts) _
      (fun s b hm => processArc_skelVerts_mono skeleton median_z scl s b _ hm)
      post _ hvAmemA
  have hvAz : (⟨st1.nextId, A.source.x, A.source.y,
      median_z + sourceHeightOf skeleton A.source * scl⟩ : Vert).z = median_z + h := by
    show median_z + sourceHeightOf skeleton A.source * scl = median_z + h
    rw [hsrcA, hscldef, hMscl]
  have hmapmem : (median_z + h) ∈ (create_skeleton_verts_and_edges skeleton initVerts
      median_z scl).skeletonVerts.map Vert.z :=
    List.mem_map.mpr ⟨_, hvAfinal, hvAz⟩
  unfold maxZOf
  apply le_antisymm
  · apply listMaxQ_le
    · exact List.ne_nil_of_mem hmapmem
    · intro a ha
      obtain ⟨v, hvm, hvz2⟩ := List.mem_map.mp ha
      rw [← hvz2]
      exact hbound.2 v hvm
  · exact mem_le_listMaxQ _ _ hmapmem

/-- A one-arc skeleton used as concrete witness input. -/
def singleArcSkeleton : List Arc := [⟨⟨0, 0⟩, [⟨3, 0⟩], 1⟩]

/-- Witness for the amended C2 at a concrete input. -/
theorem claim2_height_scaling_witness :
    maxZOf (create_skeleton_verts_and_edges singleArcSkeleton [] 0
      (2 / maxHeight singleArcSkeleton)).skeletonVerts = 0 + 2 :=
  claim2_height_scaling_amended singleArcSkeleton [] 0 2 (by norm_num)
    (by decide) (by decide) (by simp) (by decide)

/-! ### Claim C3: sink heights come from the minimum over referencing arcs -/

/-- C3: when no vertex exists at a sink's (x, y) (lines 194-198), the new
vertex is appended to the mesh at the sink's coordinates with height
`median_z + height_scale * min(arc.height for arcs listing the point as a
sink)` — `sinkHeightOf`, a minimum over the whole skeleton, not the height
of the arc currently being processed (which `resolveSink` does not even
consult). -/
theorem claim3_sink_min_height (skeleton : List Arc) (median_z scl : ℚ)
    (st : LiftState) (sink : Point)
    (h : vert_at_loc sink st.verts none = none) :
    (resolveSink skeleton median_z scl st sink).2.verts
        = st.verts ++ [(resolveSink skeleton median_z scl st sink).1] ∧
      (resolveSink skeleton median_z scl st sink).1.x = sink.x ∧
      (resolveSink skeleton median_z scl st sink).1.y = sink.y ∧
      (resolveSink skeleton median_z scl st sink).1.z
        = median_z + scl * sinkHeightOf skeleton sink := by
  rw [resolveSink_none skeleton median_z scl st sink h]
  exact ⟨rfl, rfl, rfl, rfl⟩

/-- A two-arc skeleton in which the arcs list the same sink at different
heights (3 and 1), so the minimum (1) differs from the height of the arc
being processed (3). -/
def twoSinkSkeleton : List Arc :=
  [⟨⟨0, 0⟩, [⟨5, 5⟩], 3⟩, ⟨⟨9, 9⟩, [⟨5, 5⟩], 1⟩]

/-- Witness for C3 at a concrete input: the minimum over the two arcs
listing the sink is 1 (not 3, the first arc's own height), and the created
sink vertex gets exactly that height. -/
theorem claim3_sink_min_height_witness :
    sinkHeightOf twoSinkSkeleton ⟨5, 5⟩ = 1 ∧
      ((resolveSink twoSinkSkeleton 0 1 (initLiftState []) ⟨5, 5⟩).2.verts
        = (initLiftState []).verts ++ [(resolveSink twoSinkSkeleton 0 1 (initLiftState []) ⟨5, 5⟩).1] ∧
      (resolveSink twoSinkSkeleton 0 1 (initLiftState []) ⟨5, 5⟩).1.x = (⟨5, 5⟩ : Point).x ∧
      (resolveSink twoSinkSkeleton 0 1 (initLiftState []) ⟨5, 5⟩).1.y = (⟨5, 5⟩ : Point).y ∧
      (resolveSink twoSinkSkeleton 0 1 (initLiftState []) ⟨5, 5⟩).1.z
        = 0 + 1 * sinkHeightOf twoSinkSkeleton ⟨5, 5⟩) :=
  ⟨by norm_num [sinkHeightOf, twoSinkSkeleton, listMinQ, List.filter],
    claim3_sink_min_height twoSinkSkeleton 0 1 (initLiftState []) ⟨5, 5⟩ rfl⟩

/-! ### Claim C4: reuse of the tallest colocated vertex, fallback creation -/

/-- C4: resolving a skeleton point against the mesh: when at least one
vertex matches the point's (x, y) within epsilon, `vert_at_loc` returns a
matching vertex of maximal z and both resolvers reuse it unchanged; when
none matches, the lookup returns `None` (never an error) and both resolvers
append exactly one new vertex at the point's location. -/
theorem claim4_vertex_reuse_and_creation (loc : Point) (verts : List Vert)
    (skeleton : List Arc) (mz scl : ℚ) (st : LiftState) :
    ((∃ v ∈ verts, matchesLoc loc none v = true) →
      ∃ v, vert_at_loc loc verts none = some v ∧ v ∈ verts ∧
        matchesLoc loc none v = true ∧
        ∀ w ∈ verts, matchesLoc loc none w = true → w.z ≤ v.z) ∧
    (vert_at_loc loc st.verts none = none →
      (resolveSink skeleton mz scl st loc).2.verts
          = st.verts ++ [(resolveSink skeleton mz scl st loc).1] ∧
        (resolveSink skeleton mz scl st loc).1.x = loc.x ∧
        (resolveSink skeleton mz scl st loc).1.y = loc.y ∧
        (resolveSource skeleton mz scl st loc).2.verts
          = st.verts ++ [(resolveSource skeleton mz scl st loc).1] ∧
        (resolveSource skeleton mz scl st loc).1.x = loc.x ∧
        (resolveSource skeleton mz scl st loc).1.y = loc.y) ∧
    ∀ v, vert_at_loc loc st.verts none = some v →
      resolveSink skeleton mz scl st loc = (v, st) ∧
      resolveSource skeleton mz scl st loc = (v, st) := by
  refine ⟨?_, ?_, ?_⟩
  · intro ⟨v0, hv0, hm0⟩
    cases hres : vert_at_loc loc verts none with
    | none =>
        rw [vert_at_loc_none_iff] at hres
        rw [hres v0 hv0] at hm0
        cases hm0
    | some v =>
        obtain ⟨h1, h2, h3⟩ := vert_at_loc_some loc verts none v hres
        exact ⟨v, rfl, h1, h2, h3⟩
  · intro h
    rw [resolveSink_none skeleton mz scl st loc h,
      resolveSource_none skeleton mz scl st loc h]
    exact ⟨rfl, rfl, rfl, rfl, rfl, rfl⟩
  · intro v hv
    exact ⟨resolveSink_some skeleton mz scl st loc v hv,
      resolveSource_some skeleton mz scl st loc v hv⟩

/-! ### FaceReconstructor: linked edges, closest pairs, the closure walk -/

/-- An edge is incident to a vertex (membership in `v.link_edges`). -/
def incident (v : Vert) (e : Edge) : Bool := e.va == v || e.vb == v

/-- The `v.link_edges` adjacency of `bmesh`, derived from the mesh's edge
list (`allEdges` stands for `bm.edges`). -/
def link_edges (allEdges : List Edge) (v : Vert) : List Edge :=
  allEdges.filter (incident v)

/-- `get_linked_edges` (lines 277-281): all edges linked to `verts` that
are also in `filter_edges`. -/
def get_linked_edges (allEdges : List Edge) (verts : List Vert)
    (filter_edges : List Edge) : List Edge :=
  (verts.flatMap (link_edges allEdges)).filter (fun e => e ∈ filter_edges)

/-- `bm.edges.get([w1, w2])`: the mesh edge joining the two vertices, in
either orientation, or `None`.  (With a vertex list whose length is not 2
the `bmesh` call raises; the callers below model that path separately.) -/
def edges_get (allEdges : List Edge) (w1 w2 : Vert) : Option Edge :=
  allEdges.find? fun e => (e.va == w1 && e.vb == w2) || (e.va == w2 && e.vb == w1)

/-- `calc_edge_median(e).x`. -/
def edgeMedianX (e : Edge) : ℚ := (e.va.x + e.vb.x) / 2

/-- `calc_edge_median(e).y`. -/
def edgeMedianY (e : Edge) : ℚ := (e.va.y + e.vb.y) / 2

/-- `calc_edge_median(e).z`. -/
def edgeMedianZ (e : Edge) : ℚ := (e.va.z + e.vb.z) / 2

/-- The squared distance between two edge medians.  The source sorts pairs
by `(calc_edge_median(e1) - calc_edge_median(e2)).length`; the square root
is strictly monotone on non-negative reals, so comparing squared distances
selects the same first minimiser. -/
def pairDistSq (p : Edge × Edge) : ℚ :=
  (edgeMedianX p.1 - edgeMedianX p.2) ^ 2 + (edgeMedianY p.1 - edgeMedianY p.2) ^ 2 +
    (edgeMedianZ p.1 - edgeMedianZ p.2) ^ 2

/-- One comparison step of Python `sorted(..., key=f)[0]`: keep the earlier
element unless the new key is strictly smaller. -/
def minByStep {α : Type} (f : α → ℚ) (best y : α) : α := if f y < f best then y else best

/-- The head of a stable sort by key `f`: the first element attaining the
minimal key (`sorted(pairs, key=length_func)[0]`, line 293). -/
def argminBy {α : Type} (f : α → ℚ) : List α → Option α
  | [] => none
  | x :: xs => some (xs.foldl (minByStep f) x)

/-- `find_closest_pair_edges` (lines 284-293): over all pairs from
`edges_a × edges_b` (in comprehension order), the pair of minimal
median-to-median distance, earliest pair on ties. -/
def find_closest_pair_edges (edges_a edges_b : List Edge) : Option (Edge × Edge) :=
  argminBy pairDistSq (edges_a.flatMap fun e1 => edges_b.map fun e2 => (e1, e2))

/-- `list(set(skeleton_edges) - set(linked_edges))` of line 324, rendered
deterministically (Python set order is unspecified; only membership and
cardinality of this list are observable through the claims). -/
def nextSkeletonEdges (skeleton_edges linked_edges : List Edge) : List Edge :=
  skeleton_edges.dedup.filter (fun e => e ∉ linked_edges)

theorem minByStep_cases {α : Type} (f : α → ℚ) (b y : α) :
    minByStep f b y = y ∨ minByStep f b y = b := by
  unfold minByStep
  by_cases h : f y < f b <;> simp [h]

theorem foldl_minByStep_mem {α : Type} (f : α → ℚ) (l : List α) (x : α) :
    l.foldl (minByStep f) x = x ∨ l.foldl (minByStep f) x ∈ l := by
  induction l generalizing x with
  | nil => simp
  | cons a t ih =>
      rw [List.foldl_cons]
      rcases ih (minByStep f x a) with h | h
      · rcases minByStep_cases f x a with hc | hc
        · exact Or.inr (by rw [h, hc]; exact List.mem_cons_self a t)
        · exact Or.inl (by rw [h, hc])
      · exact Or.inr (List.mem_cons_of_mem a h)

theorem argminBy_mem {α : Type} (f : α → ℚ) (l : List α) (x : α)
    (h : argminBy f l = some x) : x ∈ l := by
  cases l with
  | nil => cases h
  | cons a xs =>
      simp only [argminBy, Option.some.injEq] at h
      subst h
      rcases foldl_minByStep_mem f xs a with h | h
      · rw [h]; exact List.mem_cons_self a xs
      · exact List.mem_cons_of_mem a h

theorem find_closest_pair_mem (edges_a edges_b : List Edge) (e1 e2 : Edge)
    (h : find_closest_pair_edges edges_a edges_b = some (e1, e2)) :
    e1 ∈ edges_a ∧ e2 ∈ edges_b := by
  have hm := argminBy_mem pairDistSq _ _ h
  obtain ⟨a, ha, hmem⟩ := List.mem_flatMap.mp hm
  obtain ⟨b, hb, hab⟩ := List.mem_map.mp hmem
  obtain ⟨h1, h2⟩ := Prod.mk.injEq .. ▸ hab
  constructor
  · rw [← h1]; exact ha
  · rw [← h2]; exact hb

theorem get_linked_edges_subset (allEdges : List Edge) (verts : List Vert)
    (filter_edges : List Edge) :
    ∀ e ∈ get_linked_edges allEdges verts filter_edges, e ∈ filter_edges := by
  intro e he
  have := (List.mem_filter.mp he).2
  simpa using this

theorem nextSkeletonEdges_mem (skeleton_edges linked_edges : List Edge) (e : Edge)
    (h : e ∈ nextSkeletonEdges skeleton_edges linked_edges) :
    e ∈ skeleton_edges ∧ e ∉ linked_edges := by
  have h2 := List.mem_filter.mp h
  exact ⟨List.mem_dedup.mp h2.1, by simpa using h2.2⟩

theorem sdiff_card_lt (skel linked : List Edge) (e : Edge) (rest : List Edge)
    (h1 : e ∈ skel) (h2 : e ∉ linked) (hrest : e ∈ rest) :
    (skel.toFinset \ (linked ++ rest).toFinset).card
      < (skel.toFinset \ linked.toFinset).card := by
  apply Finset.card_lt_card
  have hsub : skel.toFinset \ (linked ++ rest).toFinset
      ⊆ skel.toFinset \ linked.toFinset := by
    intro x hx
    rw [Finset.mem_sdiff] at hx ⊢
    refine ⟨hx.1, fun hc => hx.2 ?_⟩
    rw [List.toFinset_append, Finset.mem_union]
    exact Or.inl hc
  refine (Finset.ssubset_iff_of_subset hsub).mpr ⟨e, ?_, ?_⟩
  · rw [Finset.mem_sdiff, List.mem_toFinset, List.mem_toFinset]
    exact ⟨h1, h2⟩
  · rw [Finset.mem_sdiff, List.mem_toFinset, List.mem_toFinset]
    intro hc
    exact hc.2 (List.mem_append_right _ hrest)

/-- `cycle_edges_form_polygon` (lines 319-342): walk in opposite directions
along skeleton edges linked to the two front vertices until a polygon is
formed.  The second component counts the recursive calls taken.  The
`bmesh`-free rendering: `allEdges` stands for `bm.edges`; the final
wildcard models the Python unpacking error on a front of size ≠ 2 (the
walk stops there; the claims do not depend on that path). -/
def cycle_edges_form_polygon (allEdges : List Edge) (v1 v2 : Vert)
    (skeleton_edges linked_edges : List Edge) : List Edge × ℕ :=
  if get_linked_edges allEdges [v1] (nextSkeletonEdges skeleton_edges linked_edges) = [] ∨
      get_linked_edges allEdges [v2] (nextSkeletonEdges skeleton_edges linked_edges) = [] then
    (linked_edges, 0)
  else
    match hp : find_closest_pair_edges
        (get_linked_edges allEdges [v1] (nextSkeletonEdges skeleton_edges linked_edges))
        (get_linked_edges allEdges [v2] (nextSkeletonEdges skeleton_edges linked_edges)) with
    | none => (linked_edges, 0)
    | some (e1, e2) =>
      if ([e1.va, e1.vb, e2.va, e2.vb].dedup.filter fun v => v ≠ v1 ∧ v ≠ v2).length = 1 then
        (linked_edges ++ [e1, e2], 0)
      else
        match [e1.va, e1.vb, e2.va, e2.vb].dedup.filter fun v => v ≠ v1 ∧ v ≠ v2 with
        | [w1, w2] =>
          match edges_get allEdges w1 w2 with
          | some edge => ([e1, e2] ++ linked_edges ++ [edge], 0)
          | none =>
            ((cycle_edges_form_polygon allEdges w1 w2 skeleton_edges
                (linked_edges ++ [e1, e2])).1,
              (cycle_edges_form_polygon allEdges w1 w2 skeleton_edges
                (linked_edges ++ [e1, e2])).2 + 1)
        | _ => (linked_edges, 0)
termination_by (skeleton_edges.toFinset \ linked_edges.toFinset).card
decreasing_by
  simp_wf
  have he1 : e1 ∈ get_linked_edges allEdges [v1] (nextSkeletonEdges skeleton_edges
      linked_edges) :=
    (find_closest_pair_mem _ _ e1 e2 hp).1
  have he1n := get_linked_edges_subset allEdges [v1] _ e1 he1
  obtain ⟨hs, hl⟩ := nextSkeletonEdges_mem _ _ _ he1n
  have hfin := sdiff_card_lt skeleton_edges linked_edges e1 [e1, e2] hs hl
    (List.mem_cons_self e1 [e2])
  simpa using hfin

/-! ### Claim C6: the closure walk terminates within the unused-edge count -/

/-- C6: the closure walk terminates (the definition above is accepted by
well-founded recursion on exactly this measure), and the number of
recursive steps it takes — the second component — is bounded by the number
of distinct skeleton edges not yet accumulated into the growing boundary. -/
theorem claim6_cycle_walk_step_bound (allEdges : List Edge) (v1 v2 : Vert)
    (skeleton_edges linked_edges : List Edge) :
    (cycle_edges_form_polygon allEdges v1 v2 skeleton_edges linked_edges).2
      ≤ (skeleton_edges.toFinset \ linked_edges.toFinset).card := by
  induction v1, v2, skeleton_edges, linked_edges
    using cycle_edges_form_polygon.induct allEdges with
  | case1 v1 v2 skel linked hemp =>
      unfold cycle_edges_form_polygon
      rw [if_pos hemp]
      exact Nat.zero_le _
  | case2 v1 v2 skel linked hne hp =>
      unfold cycle_edges_form_polygon
      rw [if_neg hne, hp]
      exact Nat.zero_le _
  | case3 v1 v2 skel linked hne e1 e2 hp hlen =>
      unfold cycle_edges_form_polygon
      rw [if_neg hne, hp]
      dsimp only
      rw [if_pos hlen]
      exact Nat.zero_le _
  | case4 v1 v2 skel linked hne e1 e2 hp hlen w1 w2 hv2 edge hedge =>
      unfold cycle_edges_form_polygon
      rw [if_neg hne, hp]
      dsimp only
      rw [if_neg hlen, hv2]
      dsimp only
      rw [hedge]
      exact Nat.zero_le _
  | case5 v1 v2 skel linked hne e1 e2 hp hlen w1 w2 hv2 hedge ih =>
      unfold cycle_edges_form_polygon
      rw [if_neg hne, hp]
      dsimp only
      rw [if_neg hlen, hv2]
      dsimp only
      rw [hedge]
      dsimp only
      have he1 : e1 ∈ get_linked_edges allEdges [v1] (nextSkeletonEdges skel linked) :=
        (find_closest_pair_mem _ _ e1 e2 hp).1
      obtain ⟨hs, hl⟩ := nextSkeletonEdges_mem _ _ _
        (get_linked_edges_subset allEdges [v1] _ e1 he1)
      have hstrict := sdiff_card_lt skel linked e1 [e1, e2] hs hl
        (List.mem_cons_self e1 [e2])
      exact Nat.succ_le_of_lt (lt_of_le_of_lt ih hstrict)
  | case6 v1 v2 skel linked hne e1 e2 hp hlen hwild =>
      unfold cycle_edges_form_polygon
      rw [if_neg hne, hp]
      dsimp only
      rw [if_neg hlen]
      rcases hlist : [e1.va, e1.vb, e2.va, e2.vb].dedup.filter
          fun v => v ≠ v1 ∧ v ≠ v2 with _ | ⟨a, _ | ⟨b, _ | ⟨c, t⟩⟩⟩
      · simp
      · simp
      · exact absurd hlist (by intro hc; exact hwild a b hc)
      · simp

/-! ### Claim C7: an exhausted front returns the accumulated chain -/

/-- C7: whenever either advancing front has no unused candidate skeleton
edges (lines 327-328), the walk returns the accumulated `linked_edges`
unchanged — a best-effort, possibly open chain — rather than raising. -/
theorem claim7_cycle_walk_best_effort (allEdges : List Edge) (v1 v2 : Vert)
    (skeleton_edges linked_edges : List Edge)
    (h : get_linked_edges allEdges [v1] (nextSkeletonEdges skeleton_edges linked_edges) = []
      ∨ get_linked_edges allEdges [v2] (nextSkeletonEdges skeleton_edges linked_edges) = []) :
    (cycle_edges_form_polygon allEdges v1 v2 skeleton_edges linked_edges).1
      = linked_edges := by
  unfold cycle_edges_form_polygon
  rw [if_pos h]

/-- A sample accumulated edge used by the C7 witness. -/
def probeEdge : Edge := ⟨⟨0, 0, 0, 0⟩, ⟨1, 1, 0, 0⟩⟩

/-- Witness for C7 at a concrete input: an empty mesh exhausts both fronts
immediately and the accumulated chain comes back unchanged. -/
theorem claim7_cycle_walk_best_effort_witness :
    (cycle_edges_form_polygon [] ⟨0, 0, 0, 0⟩ ⟨1, 1, 0, 0⟩ [] [probeEdge]).1
      = [probeEdge] :=
  claim7_cycle_walk_best_effort [] ⟨0, 0, 0, 0⟩ ⟨1, 1, 0, 0⟩ [] [probeEdge] (Or.inl rfl)

/-! ### Claim C5: the triangle / quad / polygon case analysis -/

/-- The `linked_skeleton_edges` of line 225: skeleton edges incident to
either endpoint of the boundary edge. -/
def linkedSkeletonEdges (allEdges skeleton_edges : List Edge) (ed : Edge) : List Edge :=
  get_linked_edges allEdges [ed.va, ed.vb] skeleton_edges

/-- The `opposite_verts` of lines 226-227:
`list(set(all endpoint verts of the linked edges) - set(ed.verts))` —
rendered deterministically (Python set order is unspecified; only the
membership and cardinality of this list are observable below). -/
def oppositeVerts (allEdges skeleton_edges : List Edge) (ed : Edge) : List Vert :=
  (((linkedSkeletonEdges allEdges skeleton_edges ed).flatMap fun e => [e.va, e.vb]).dedup).filter
    fun v => v ≠ ed.va ∧ v ≠ ed.vb

/-- Which closure the `create_skeleton_faces` loop body takes for a
boundary edge.  `typeError` models `bm.edges.get(opposite_verts)` raising
when `opposite_verts` is not a pair (lines 233-234 call it whenever the
count is not 1). -/
inductive FaceCase where
  | triangle
  | quad
  | polygon
  | typeError
deriving DecidableEq, Repr

/-- The loop body of `create_skeleton_faces` (lines 223-246) for one
original boundary edge: the chosen case and the edge set handed to
`bmesh.ops.contextual_create`. -/
def classify_boundary_edge (allEdges skeleton_edges : List Edge) (ed : Edge) :
    FaceCase × List Edge :=
  if (oppositeVerts allEdges skeleton_edges ed).length = 1 then
    (.triangle, linkedSkeletonEdges allEdges skeleton_edges ed ++ [ed])
  else
    match oppositeVerts allEdges skeleton_edges ed with
    | [w1, w2] =>
      match edges_get allEdges w1 w2 with
      | some edge => (.quad, linkedSkeletonEdges allEdges skeleton_edges ed ++ [ed, edge])
      | none =>
        (.polygon, [ed] ++ (cycle_edges_form_polygon allEdges w1 w2 skeleton_edges
          (linkedSkeletonEdges allEdges skeleton_edges ed)).1)
    | _ => (.typeError, [])

/-- `create_skeleton_faces` (lines 214-247): one closure per original
boundary edge. -/
def create_skeleton_faces (allEdges original_edges skeleton_edges : List Edge) :
    List (FaceCase × List Edge) :=
  original_edges.map (classify_boundary_edge allEdges skeleton_edges)

/-- C5: the triangle case is taken exactly when there is one opposite
vertex, and then the face is built over the linked edges plus the boundary
edge; the quad case is taken exactly when there are exactly two opposite
vertices and a direct mesh edge already joins them, and then the face is
built over the linked edges, the boundary edge and that direct edge. -/
theorem claim5_triangle_quad_cases (allEdges skeleton_edges : List Edge) (ed : Edge) :
    ((classify_boundary_edge allEdges skeleton_edges ed).1 = .triangle ↔
      (oppositeVerts allEdges skeleton_edges ed).length = 1) ∧
    ((classify_boundary_edge allEdges skeleton_edges ed).1 = .triangle →
      (classify_boundary_edge allEdges skeleton_edges ed).2
        = linkedSkeletonEdges allEdges skeleton_edges ed ++ [ed]) ∧
    ((classify_boundary_edge allEdges skeleton_edges ed).1 = .quad ↔
      ∃ w1 w2 e, oppositeVerts allEdges skeleton_edges ed = [w1, w2] ∧
        edges_get allEdges w1 w2 = some e) ∧
    ∀ w1 w2 e, oppositeVerts allEdges skeleton_edges ed = [w1, w2] →
      edges_get allEdges w1 w2 = some e →
      (classify_boundary_edge allEdges skeleton_edges ed).2
        = linkedSkeletonEdges allEdges skeleton_edges ed ++ [ed, e] := by
  unfold classify_boundary_edge
  by_cases hlen : (oppositeVerts allEdges skeleton_edges ed).length = 1
  · rw [if_pos hlen]
    refine ⟨by simp [hlen], fun _ => rfl, ?_, ?_⟩
    · simp only [reduceCtorEq, false_iff]
      rintro ⟨w1, w2, e, hw, he⟩
      rw [hw] at hlen
      simp at hlen
    · intro w1 w2 e hw he
      rw [hw] at hlen
      simp at hlen
  · rw [if_neg hlen]
    rcases hopp : oppositeVerts allEdges skeleton_edges ed with _ | ⟨a, _ | ⟨b, _ | ⟨c, t⟩⟩⟩
    · simp
    · exact absurd (by simp [hopp]) hlen
    · dsimp only
      cases hedge : edges_get allEdges a b with
      | some e =>
          refine ⟨by simp, by simp, ?_, ?_⟩
          · constructor
            · intro _
              exact ⟨a, b, e, rfl, hedge⟩
            · intro _
              rfl
          · intro w1 w2 e2 hw he2
            obtain ⟨rfl, rfl⟩ : a = w1 ∧ b = w2 := by simpa using hw
            rw [hedge] at he2
            obtain rfl : e = e2 := by simpa using he2
            rfl
      | none =>
          refine ⟨by simp, by simp, ?_, ?_⟩
          · simp only [reduceCtorEq, false_iff]
            rintro ⟨w1, w2, e, hw, he⟩
            obtain ⟨rfl, rfl⟩ : a = w1 ∧ b = w2 := by simpa using hw
            rw [hedge] at he
            cases he
          · intro w1 w2 e hw he
            obtain ⟨rfl, rfl⟩ : a = w1 ∧ b = w2 := by simpa using hw
            rw [hedge] at he
            cases he
    · dsimp only
      refine ⟨by simp, by simp, ?_, ?_⟩
      · simp only [reduceCtorEq, false_iff]
        rintro ⟨w1, w2, e, hw, he⟩
        simp at hw
      · intro w1 w2 e hw he
        simp at hw

/-! ### Claim C8: open-gable extrusion selects the non-horizontal faces -/

/-- The selection of line 364 in `gable_process_open`:
`top_faces = [f for f in roof_faces if f.normal.z]` — Python truthiness of
the float `f.normal.z` is `z ≠ 0`.  This list is exactly the `geom`
argument of the `extrude_face_region` call at line 367; no other
reconstructed face is extruded. -/
def gable_open_top_faces (roof_faces : List Face) : List Face :=
  roof_faces.filter fun f => f.normal.z ≠ 0

/-- C8: a reconstructed face is selected for the upward extrusion of
`gable_process_open` exactly when its normal has a non-zero vertical
component; every other face of `roof_faces` is left out of the extrusion
geometry. -/
theorem claim8_open_gable_extrusion_selection (roof_faces : List Face) (f : Face) :
    f ∈ gable_open_top_faces roof_faces ↔ f ∈ roof_faces ∧ f.normal.z ≠ 0 := by
  simp [gable_open_top_faces]

/-! ### Claim C9: the open-gable slope correction -/

/-- Modelled from the spec: `filter_vertical_edges` (in `utils`, which is
not under `src/`) — the edges of a face that run vertically, i.e. whose two
endpoints coincide in x and y.  The face normal is passed through as in the
source's call sites but plays no role for vertical edges. -/
def filter_vertical_edges (edges : List Edge) (normal : Vec3) : List Edge :=
  edges.filter fun e => e.va.x = e.vb.x ∧ e.va.y = e.vb.y

/-- The `v_edges` accumulation of lines 396-398: every vertical edge of
every side face. -/
def openGableVEdges (side_faces : List Face) : List Edge :=
  side_faces.flatMap fun f => filter_vertical_edges f.fedges f.normal

/-- `min_z = min([calc_edge_median(e).z for e in v_edges])` (line 401). -/
def openGableMinZ (side_faces : List Face) : ℚ :=
  (listMinQ ((openGableVEdges side_faces).map edgeMedianZ)).getD 0

/-- `min_z_edges` (line 402): the vertical edges whose median z equals the
minimum (the source compares with exact `==`). -/
def openGableMinZEdges (side_faces : List Face) : List Edge :=
  (openGableVEdges side_faces).filter fun e => edgeMedianZ e = openGableMinZ side_faces

/-- `min_z_verts = list(set(...))` (line 403): each vertex of a minimum
edge, once. -/
def openGableMinZVerts (side_faces : List Face) : List Vert :=
  ((openGableMinZEdges side_faces).flatMap fun e => [e.va, e.vb]).dedup

/-- The `bmesh.ops.translate(bm, verts=min_z_verts, vec=(0, 0, -outset/2))`
of line 404 as a per-vertex position update: a vertex in `min_z_verts`
moves down by `outset / 2`, every other vertex is untouched. -/
def openGableSlopeCorrect (side_faces : List Face) (outset : ℚ) (v : Vert) : Vert :=
  if v ∈ openGableMinZVerts side_faces then ⟨v.vid, v.x, v.y, v.z - outset / 2⟩ else v

/-- C9: after the outset, every vertex of a vertical side-face edge whose
median z is the minimum over all such vertical edges is translated down by
exactly `outset / 2` relative to its pre-correction position (x and y are
unchanged). -/
theorem claim9_open_gable_slope_correction (side_faces : List Face) (outset : ℚ)
    (e : Edge) (v : Vert)
    (he : e ∈ openGableVEdges side_faces)
    (hmin : edgeMedianZ e = openGableMinZ side_faces)
    (hv : v = e.va ∨ v = e.vb) :
    openGableSlopeCorrect side_faces outset v = ⟨v.vid, v.x, v.y, v.z - outset / 2⟩ := by
  have hemem : e ∈ openGableMinZEdges side_faces :=
    List.mem_filter.mpr ⟨he, by simpa using hmin⟩
  have hvmem : v ∈ openGableMinZVerts side_faces := by
    rw [openGableMinZVerts, List.mem_dedup]
    exact List.mem_flatMap.mpr ⟨e, hemem, by rcases hv with rfl | rfl <;> simp⟩
  rw [openGableSlopeCorrect, if_pos hvmem]

/-- Lower vertex of the witness side face's vertical edge. -/
def wVertA : Vert := ⟨1, 0, 0, 0⟩

/-- Upper vertex of the witness side face's vertical edge. -/
def wVertB : Vert := ⟨2, 0, 0, 3⟩

/-- The witness side face's single vertical edge. -/
def wSideEdge : Edge := ⟨wVertA, wVertB⟩

/-- A concrete side face for the C9 witness. -/
def wSideFace : Face := ⟨0, [wSideEdge], ⟨1, 0, 0⟩, false⟩

/-- Witness for C9 at a concrete input: with `outset = 1`, the vertex of
the (unique, hence minimal) vertical edge moves down by `1 / 2`. -/
theorem claim9_open_gable_slope_correction_witness :
    openGableSlopeCorrect [wSideFace] 1 wVertA
      = ⟨wVertA.vid, wVertA.x, wVertA.y, wVertA.z - 1 / 2⟩ :=
  claim9_open_gable_slope_correction [wSideFace] 1 wSideEdge wVertA (by decide) rfl
    (Or.inl rfl)

/-! ### Claim C10: unknown roof types touch nothing but the selection -/

/-- The duck-typed configuration surface consumed by `create_roof`. -/
structure RoofProps where
  type : String
  gable_type : String
  height : ℚ
  thickness : ℚ
  outset : ℚ
deriving DecidableEq, Repr

/-- The mutable mesh as `create_roof` sees it. -/
structure Mesh where
  mverts : List Vert
  medges : List Edge
  mfaces : List Face
deriving DecidableEq, Repr

/-- `select(faces, False)` (line 25): clear the selection flag of the given
faces (identified, like `bmesh` objects, by identity) and nothing else. -/
def select_faces (bm : Mesh) (faces : List Face) (b : Bool) : Mesh :=
  { bm with
      mfaces := bm.mfaces.map fun f =>
        if faces.any fun g => g.fid = f.fid then { f with sel := b } else f }

/-- `create_roof` (lines 22-33): deselect the input faces, then dispatch on
`prop.type`; the three roof constructors are taken as parameters (their
bodies are the mesh-kernel-heavy pipelines modelled piecewise above), which
is all the frame claim needs — the chain has no `else` branch, so any other
type value performs no further mutation. -/
def create_roof (create_flat create_gable create_hip : Mesh → List Face → RoofProps → Mesh)
    (bm : Mesh) (faces : List Face) (prop : RoofProps) : Mesh :=
  if prop.type = "FLAT" then create_flat (select_faces bm faces false) faces prop
  else if prop.type = "GABLE" then create_gable (select_faces bm faces false) faces prop
  else if prop.type = "HIP" then create_hip (select_faces bm faces false) faces prop
  else select_faces bm faces false

/-- C10: for a roof type outside {FLAT, GABLE, HIP}, `create_roof` takes no
branch: the result is exactly the deselection of the input faces — the
vertex list, edge list and face geometry are unchanged, only the selection
flags of the input faces are cleared. -/
theorem claim10_unknown_roof_type_frame
    (create_flat create_gable create_hip : Mesh → List Face → RoofProps → Mesh)
    (bm : Mesh) (faces : List Face) (prop : RoofProps)
    (h1 : prop.type ≠ "FLAT") (h2 : prop.type ≠ "GABLE") (h3 : prop.type ≠ "HIP") :
    create_roof create_flat create_gable create_hip bm faces prop
        = select_faces bm faces false ∧
      (create_roof create_flat create_gable create_hip bm faces prop).mverts
        = bm.mverts ∧
      (create_roof create_flat create_gable create_hip bm faces prop).medges
        = bm.medges ∧
      (create_roof create_flat create_gable create_hip bm faces prop).mfaces
        = bm.mfaces.map fun f =>
            if faces.any fun g => g.fid = f.fid then { f with sel := false } else f := by
  have he : create_roof create_flat create_gable create_hip bm faces prop
      = select_faces bm faces false := by
    unfold create_roof
    rw [if_neg h1, if_neg h2, if_neg h3]
  refine ⟨he, ?_, ?_, ?_⟩ <;> rw [he] <;> rfl

/-- A one-face mesh for the C10 witness. -/
def wMesh : Mesh := ⟨[wVertA], [wSideEdge], [⟨7, [wSideEdge], ⟨0, 0, 1⟩, true⟩]⟩

/-- A configuration whose roof type is outside {FLAT, GABLE, HIP}. -/
def wDomeProps : RoofProps := ⟨"DOME", "OPEN", 2, 1, 1⟩

/-- Witness for C10 at a concrete input: with type "DOME" (and arbitrary
branch bodies), only the selection flag changes. -/
theorem claim10_unknown_roof_type_frame_witness :
    create_roof (fun b _ _ => b) (fun b _ _ => b) (fun b _ _ => b)
        wMesh wMesh.mfaces wDomeProps
        = select_faces wMesh wMesh.mfaces false ∧
      (create_roof (fun b _ _ => b) (fun b _ _ => b) (fun b _ _ => b)
        wMesh wMesh.mfaces wDomeProps).mverts = wMesh.mverts ∧
      (create_roof (fun b _ _ => b) (fun b _ _ => b) (fun b _ _ => b)
        wMesh wMesh.mfaces wDomeProps).medges = wMesh.medges ∧
      (create_roof (fun b _ _ => b) (fun b _ _ => b) (fun b _ _ => b)
        wMesh wMesh.mfaces wDomeProps).mfaces
        = wMesh.mfaces.map fun f =>
            if wMesh.mfaces.any fun g => g.fid = f.fid then { f with sel := false } else f :=
  claim10_unknown_roof_type_frame (fun b _ _ => b) (fun b _ _ => b) (fun b _ _ => b)
    wMesh wMesh.mfaces wDomeProps (by decide) (by decide) (by decide)

end BuildingTools
